import Mathlib

/-!
Verification development for `sus.py`: a batch script that reads the CTD
chemical–gene interaction CSV with `pandas.read_csv`, derives display fields
(badges from `InteractionActions`, PubMed id lists from `PubMedIDs`),
computes sorted dropdown vocabularies, and renders a single HTML document
through a `jinja2.Template`.

The embedding works on `List Char` for the Python string operations
(`str.split`, `str.lower`, `str.replace`, `str.startswith`) and models the
behaviour of the two library calls the script depends on
(`pandas.read_csv(..., comment="#", header=None, names=FIELD_NAMES,
dtype=str, sep=",", quotechar='"', engine="python").fillna("")` and
`jinja2.Template(...).render(...)`, which does not autoescape) as explicit
Lean functions, each documented at its definition site.
-/

deriving instance DecidableEq for Except

namespace Sus

/-- Bridge between the executable `List.isPrefixOf` and the `<+:` relation. -/
theorem isPrefixOf_eq_true_iff {l₁ l₂ : List Char} :
    l₁.isPrefixOf l₂ = true ↔ l₁ <+: l₂ :=
  List.isPrefixOf_iff_prefix

/-- Python `str.lower`, character by character.  `Char.toLower` folds the
ASCII range, which agrees with Python on every character of the prefixes
`"increases"` / `"decreases"` that the script compares against. -/
def pyLower (cs : List Char) : List Char := cs.map Char.toLower

/-- Python `act.replace('^', ' ')`: every caret becomes a single space and
no other character changes (a single-character replacement is a `map`). -/
def caretToSpace (cs : List Char) : List Char :=
  cs.map (fun c => if c = '^' then ' ' else c)

/-- Python `str.split(sep)` for a one-character separator: `""` splits to
`[""]`, and every separator occurrence opens a new (possibly empty) piece. -/
def pySplit (sep : Char) : List Char → List (List Char)
  | [] => [[]]
  | c :: cs =>
    let r := pySplit sep cs
    if c = sep then [] :: r else (c :: r.headI) :: r.tail

/-- Python `sep.join` for a one-character separator (used to state the
split/join round-trip property of the spec; the script itself only splits). -/
def pyJoin (sep : Char) : List (List Char) → List Char
  | [] => []
  | [p] => p
  | p :: q :: ps => p ++ sep :: pyJoin sep (q :: ps)

/-- Discard the empty segments of a split, as `if not act: continue` and the
comprehension `[pid for pid in lst if pid]` do in the script. -/
def dropEmpty (l : List (List Char)) : List (List Char) := l.filter (· ≠ [])

/-- The non-empty `|`-separated segments of a cell (`sus.py`, lines 109–110
for actions and line 142 for PubMed ids). -/
def actionSegments (cell : List Char) : List (List Char) :=
  dropEmpty (pySplit '|' cell)

/-- One rendered badge: a Bootstrap class and a display label
(`sus.py`, line 114). -/
structure Badge where
  cls : String
  txt : String
  deriving DecidableEq, Repr

/-- The class chosen for one action segment (`sus.py`, line 113): the
lowercased segment is prefix-matched against `"increases"` then
`"decreases"`. -/
def badgeCls (act : List Char) : String :=
  if ("increases".data).isPrefixOf (pyLower act) then "bg-success"
  else if ("decreases".data).isPrefixOf (pyLower act) then "bg-danger"
  else "bg-secondary"

/-- `parse_actions` (`sus.py`, lines 107–115): split the cell on `|`, skip
empty segments, classify each remaining segment and replace carets in the
label. -/
def parse_actions (cell : List Char) : List Badge :=
  (actionSegments cell).map
    (fun act => { cls := badgeCls act, txt := String.mk (caretToSpace act) })

/-- The spec's three badge categories. -/
inductive Category where
  | increase
  | decrease
  | other
  deriving DecidableEq, Repr

/-- Category assignment written from the spec's words (for the refinement
comparison with `badgeCls`): "determine category by case-insensitive prefix
match: segment starting with "increases" → increase; starting with
"decreases" → decrease; otherwise → other". -/
def specCategory (act : List Char) : Category :=
  if ("increases".data).isPrefixOf (pyLower act) then .increase
  else if ("decreases".data).isPrefixOf (pyLower act) then .decrease
  else .other

/-- The fixed Bootstrap class attached to each spec category. -/
def categoryCls : Category → String
  | .increase => "bg-success"
  | .decrease => "bg-danger"
  | .other => "bg-secondary"

theorem badgeCls_eq_categoryCls (act : List Char) :
    badgeCls act = categoryCls (specCategory act) := by
  unfold badgeCls specCategory
  split_ifs <;> rfl

theorem pySplit_ne_nil (sep : Char) (cs : List Char) : pySplit sep cs ≠ [] := by
  cases cs with
  | nil => simp [pySplit]
  | cons c cs => simp only [pySplit]; split <;> simp

theorem pySplit_cons_eq (sep c : Char) (cs : List Char) {q : List Char}
    {qs : List (List Char)} (h : pySplit sep cs = q :: qs) :
    pySplit sep (c :: cs) = if c = sep then [] :: q :: qs else (c :: q) :: qs := by
  simp only [pySplit, h]
  split <;> rfl

theorem pySplit_not_mem_sep (sep : Char) (cs : List Char) :
    ∀ p ∈ pySplit sep cs, sep ∉ p := by
  induction cs with
  | nil => intro p hp; simp [pySplit] at hp; simp [hp]
  | cons c cs ih =>
    intro p hp
    rcases hsplit : pySplit sep cs with _ | ⟨q, qs⟩
    · exact absurd hsplit (pySplit_ne_nil sep cs)
    · rw [pySplit_cons_eq sep c cs hsplit] at hp
      have ihq : sep ∉ q := ih q (by rw [hsplit]; exact List.mem_cons_self q qs)
      by_cases hc : c = sep
      · rw [if_pos hc] at hp
        rcases List.mem_cons.mp hp with rfl | hp
        · simp
        · exact ih p (hsplit ▸ hp)
      · rw [if_neg hc] at hp
        rcases List.mem_cons.mp hp with rfl | hp
        · intro hmem
          rcases List.mem_cons.mp hmem with h1 | h1
          · exact hc h1.symm
          · exact ihq h1
        · exact ih p (by rw [hsplit]; exact List.mem_cons_of_mem _ hp)

theorem pySplit_of_not_mem {sep : Char} {cs : List Char} (h : sep ∉ cs) :
    pySplit sep cs = [cs] := by
  induction cs with
  | nil => rfl
  | cons c cs ih =>
    have hc : c ≠ sep := fun hcc => h (by simp [hcc])
    have hcs : sep ∉ cs := fun hm => h (List.mem_cons_of_mem _ hm)
    rw [pySplit_cons_eq sep c cs (ih hcs), if_neg hc]

theorem pySplit_append_sep {sep : Char} {p : List Char} (rest : List Char)
    (hp : sep ∉ p) :
    pySplit sep (p ++ sep :: rest) = p :: pySplit sep rest := by
  induction p with
  | nil =>
    simp only [List.nil_append, pySplit]
    simp
  | cons a p ih =>
    have ha : a ≠ sep := fun hcc => hp (by simp [hcc])
    have hps : sep ∉ p := fun hm => hp (List.mem_cons_of_mem _ hm)
    have step := ih hps
    rcases hrest : pySplit sep rest with _ | ⟨q, qs⟩
    · exact absurd hrest (pySplit_ne_nil sep rest)
    · rw [hrest] at step
      rw [List.cons_append, pySplit_cons_eq sep a _ step, if_neg ha]

theorem dropEmpty_nil : dropEmpty [] = [] := rfl

theorem dropEmpty_cons_of_ne {p : List Char} (l : List (List Char)) (h : p ≠ []) :
    dropEmpty (p :: l) = p :: dropEmpty l := by
  simp [dropEmpty, List.filter_cons, h]

theorem dropEmpty_cons_nil (l : List (List Char)) :
    dropEmpty ([] :: l) = dropEmpty l := by
  simp [dropEmpty, List.filter_cons]

theorem mem_dropEmpty {p : List Char} {l : List (List Char)} :
    p ∈ dropEmpty l ↔ p ∈ l ∧ p ≠ [] := by
  simp [dropEmpty, List.mem_filter]

theorem dropEmpty_roundtrip (sep : Char) :
    ∀ ps : List (List Char), (∀ p ∈ ps, p ≠ [] ∧ sep ∉ p) →
      dropEmpty (pySplit sep (pyJoin sep ps)) = ps := by
  intro ps
  induction ps with
  | nil => intro _; rfl
  | cons p ps ih =>
    intro h
    cases ps with
    | nil =>
      have hp := h p (by simp)
      rw [pyJoin, pySplit_of_not_mem hp.2, dropEmpty_cons_of_ne _ hp.1, dropEmpty_nil]
    | cons q qs =>
      have hp := h p (by simp)
      have hrest : ∀ r ∈ q :: qs, r ≠ [] ∧ sep ∉ r := fun r hr =>
        h r (List.mem_cons_of_mem _ hr)
      rw [pyJoin, pySplit_append_sep _ hp.2, dropEmpty_cons_of_ne _ hp.1, ih hrest]

theorem isPrefixOf_cons_cons (a b : Char) (l₁ l₂ : List Char) :
    (a :: l₁).isPrefixOf (b :: l₂) = (a == b && l₁.isPrefixOf l₂) := rfl

/-- C8: splitting a cell on the pipe character and discarding empty segments
is idempotent — rejoining the non-empty segments with a pipe and
splitting-and-discarding again yields exactly the same segments. -/
theorem sus_C8 (cs : List Char) :
    dropEmpty (pySplit '|' (pyJoin '|' (dropEmpty (pySplit '|' cs)))) =
      dropEmpty (pySplit '|' cs) := by
  apply dropEmpty_roundtrip
  intro p hp
  rcases mem_dropEmpty.mp hp with ⟨hmem, hne⟩
  exact ⟨hne, pySplit_not_mem_sep _ _ p hmem⟩

/-- C1 counterexample: the segment `" Increases activity"` (leading space)
is classified `bg-secondary` (category `other`) by `parse_actions`, not
`bg-success` (category `increase`) as the claim asserts. -/
theorem sus_C1_counterexample :
    (parse_actions (" Increases activity".data)).map Badge.cls = ["bg-secondary"] ∧
      (parse_actions (" Increases activity".data)).map Badge.cls ≠
        [categoryCls Category.increase] := by
  constructor <;> decide

/-- C1 (amended): the badge category is a case-insensitive prefix match on
the raw (untrimmed) segment — `parse_actions` refines the spec's category
assignment segmentwise; any continuation after the matched keyword
(including trailing whitespace) keeps the category, but a segment with a
leading space never matches and is classified `other`. -/
theorem sus_C1 :
    (∀ cell : List Char, (parse_actions cell).map Badge.cls =
        (actionSegments cell).map (fun act => categoryCls (specCategory act))) ∧
      (∀ rest : List Char, specCategory ("Increases".data ++ rest) = Category.increase) ∧
      (∀ rest : List Char, specCategory ("decREASES".data ++ rest) = Category.decrease) ∧
      (∀ act : List Char, specCategory (' ' :: act) = Category.other) := by
  refine ⟨?_, ?_, ?_, ?_⟩
  · intro cell
    rw [parse_actions, List.map_map]
    exact List.map_congr_left fun a _ => badgeCls_eq_categoryCls a
  · intro rest
    have h : ("increases".data).isPrefixOf (pyLower ("Increases".data ++ rest)) = true := by
      rw [pyLower, List.map_append]
      exact isPrefixOf_eq_true_iff.mpr
        ⟨List.map Char.toLower rest, by rfl⟩
    unfold specCategory
    rw [if_pos h]
  · intro rest
    have h1 : ("increases".data).isPrefixOf (pyLower ("decREASES".data ++ rest)) = false := by
      rw [pyLower, List.map_append]
      show (('i' : Char) :: "ncreases".data).isPrefixOf
        (('d' : Char) :: ("ecreases".data ++ List.map Char.toLower rest)) = false
      rw [isPrefixOf_cons_cons, show (('i' : Char) == 'd') = false from rfl,
        Bool.false_and]
    have h2 : ("decreases".data).isPrefixOf (pyLower ("decREASES".data ++ rest)) = true := by
      rw [pyLower, List.map_append]
      exact isPrefixOf_eq_true_iff.mpr
        ⟨List.map Char.toLower rest, by rfl⟩
    unfold specCategory
    rw [if_neg (by rw [h1]; exact Bool.false_ne_true), if_pos h2]
  · intro act
    have h1 : ("increases".data).isPrefixOf (pyLower (' ' :: act)) = false := by
      show (('i' : Char) :: "ncreases".data).isPrefixOf ((' ' : Char) :: pyLower act) = false
      rw [isPrefixOf_cons_cons, show (('i' : Char) == ' ') = false from rfl,
        Bool.false_and]
    have h2 : ("decreases".data).isPrefixOf (pyLower (' ' :: act)) = false := by
      show (('d' : Char) :: "ecreases".data).isPrefixOf ((' ' : Char) :: pyLower act) = false
      rw [isPrefixOf_cons_cons, show (('d' : Char) == ' ') = false from rfl,
        Bool.false_and]
    unfold specCategory
    rw [if_neg (by rw [h1]; exact Bool.false_ne_true),
      if_neg (by rw [h2]; exact Bool.false_ne_true)]

/-- C5: a badge's label is the original segment with every caret replaced
by a single space and nothing else altered: labelwise `parse_actions` is
exactly the caret substitution; a cell that is a single token (no pipe,
non-empty) yields exactly one badge carrying that token's substituted text;
and the substitution is positionwise (`'^'` becomes `' '`, every other
character is preserved, length unchanged). -/
theorem sus_C5 :
    (∀ cell : List Char, (parse_actions cell).map Badge.txt =
        (actionSegments cell).map (fun act => String.mk (caretToSpace act))) ∧
      (∀ cell : List Char, '|' ∉ cell → cell ≠ [] →
        parse_actions cell = [⟨badgeCls cell, String.mk (caretToSpace cell)⟩]) ∧
      (∀ (act : List Char) (i : ℕ), (caretToSpace act)[i]? =
        (act[i]?).map (fun c => if c = '^' then ' ' else c)) := by
  refine ⟨?_, ?_, ?_⟩
  · intro cell
    rw [parse_actions, List.map_map]
    rfl
  · intro cell h1 h2
    rw [parse_actions, actionSegments, pySplit_of_not_mem h1,
      dropEmpty_cons_of_ne _ h2, dropEmpty_nil]
    rfl
  · intro act i
    rw [caretToSpace, List.getElem?_map]

/-- C5 witness: the single-token cell `"Increases^resistance"` produces
exactly one badge whose label replaces the caret with a space. -/
theorem sus_C5_witness :
    parse_actions ("Increases^resistance".data) =
      [{ cls := "bg-success", txt := "Increases resistance" }] := by
  have h := sus_C5.2.1 ("Increases^resistance".data) (by decide) (by decide)
  rw [h]
  decide

/-- Pandas `Series.unique` (`sus.py`, lines 145–146): the distinct values in
order of first appearance. -/
def unique : List String → List String
  | [] => []
  | x :: xs => x :: unique (xs.filter (· ≠ x))
termination_by l => l.length
decreasing_by simpa using Nat.lt_succ_of_le (List.length_filter_le _ _)

/-- Python `sorted(...)` over the distinct values (`sus.py`, lines 145–146):
ascending lexicographic (codepoint) String order.  On distinct elements any
correct sort produces the same list, so insertion sort stands in for
Python's Timsort. -/
def sortedVocab (xs : List String) : List String :=
  (unique xs).insertionSort (· ≤ ·)

theorem mem_unique : ∀ (xs : List String) (a : String), a ∈ unique xs ↔ a ∈ xs := by
  intro xs
  induction xs using unique.induct with
  | case1 => intro a; simp [unique]
  | case2 x xs ih =>
    intro a
    rw [unique]
    simp only [List.mem_cons, ih a, List.mem_filter]
    constructor
    · rintro (rfl | ⟨h, _⟩)
      · exact Or.inl rfl
      · exact Or.inr h
    · rintro (rfl | h)
      · exact Or.inl rfl
      · by_cases hax : a = x
        · exact Or.inl hax
        · exact Or.inr ⟨h, by simpa using hax⟩

theorem nodup_unique : ∀ xs : List String, (unique xs).Nodup := by
  intro xs
  induction xs using unique.induct with
  | case1 => simp [unique]
  | case2 x xs ih =>
    rw [unique]
    refine List.nodup_cons.mpr ⟨?_, ih⟩
    intro hmem
    rcases List.mem_filter.mp ((mem_unique _ x).mp hmem) with ⟨_, hne⟩
    simp at hne

/-- C6: for every value sequence the vocabulary is strictly ascending in the
codepoint-lexicographic String order (hence sorted with no duplicates), its
members are exactly the values occurring in the input, and in particular the
empty string is a member whenever some record carries an empty value. -/
theorem sus_C6 (xs : List String) :
    (sortedVocab xs).Sorted (· < ·) ∧
      (sortedVocab xs).Nodup ∧
      (∀ a : String, a ∈ sortedVocab xs ↔ a ∈ xs) ∧
      ("" ∈ xs → "" ∈ sortedVocab xs) := by
  have hnd : (sortedVocab xs).Nodup :=
    ((List.perm_insertionSort _ _).nodup_iff).mpr (nodup_unique xs)
  have hs : (sortedVocab xs).Sorted (· ≤ ·) :=
    List.sorted_insertionSort _ _
  have hmem : ∀ a : String, a ∈ sortedVocab xs ↔ a ∈ xs := by
    intro a
    rw [sortedVocab, List.mem_insertionSort, mem_unique]
  refine ⟨?_, hnd, hmem, fun h => (hmem "").mpr h⟩
  exact (hs.and hnd).imp fun hab => lt_iff_le_and_ne.mpr hab

/-- C6 witness: on a concrete value sequence with duplicates and an empty
value, the vocabulary contains the empty string (and is the sorted
deduplication). -/
theorem sus_C6_witness :
    "" ∈ sortedVocab ["b", "", "a", "b"] :=
  (sus_C6 ["b", "", "a", "b"]).2.2.2 (by decide)

/-- One normalized record bound into the template (`sus.py`, lines 130–142
and 150): the renamed display fields plus the derived badge and PubMed
lists. -/
structure Row where
  Chemical : String
  Species : String
  GeneSymbol : String
  Interaction : String
  Badges : List Badge
  PubMedIDs : List String
  deriving DecidableEq, Repr

/-- Field derivation for one padded 11-field record, positions as in
`FIELD_NAMES` (`sus.py`, lines 12–16): `rename_map` (line 130) exposes
ChemicalName (0) as Chemical, Organism (6) as Species, GeneSymbol (3) and
Interaction (8) unchanged; Badges come from InteractionActions (9) via
`parse_actions` (line 141) and PubMedIDs (10) is pipe-split with empty
entries dropped (line 142). -/
def normalize (rec : List String) : Row :=
  { Chemical := rec.getD 0 ""
    Species := rec.getD 6 ""
    GeneSymbol := rec.getD 3 ""
    Interaction := rec.getD 8 ""
    Badges := parse_actions (rec.getD 9 "").data
    PubMedIDs := (dropEmpty (pySplit '|' (rec.getD 10 "").data)).map
      (fun p => String.mk p) }

/-!
The document renderer models `Template(TEMPLATE).render(rows=rows,
chems=chems, species_list=species_list)` (`sus.py`, lines 19–101 and
149–151).  A `jinja2.Template` constructed this way has `autoescape=False`
(the jinja2 default), so every `\x7b\x7b ... \x7d\x7d` interpolation
inserts the value verbatim — no HTML escaping happens anywhere.  The jinja
loops become `List.map`/`List.flatten`; the static template text is kept
except for insignificant indentation remnants that jinja leaves where the
`\x7b% ... %\x7d` tags stood.
-/

/-- Template text up to and including the fixed "All Chemicals" option
(`sus.py`, lines 20–40). -/
def docHead : List Char :=
  ("\n<!doctype html>\n<html lang=\"en\">\n<head>\n  <meta charset=\"utf-8\">\n  <meta name=\"viewport\" content=\"width=device-width, initial-scale=1\">\n  <title>SUS-PECIES Database</title>\n  <link href=\"https://cdn.jsdelivr.net/npm/bootstrap@5.3.0/dist/css/bootstrap.min.css\" rel=\"stylesheet\">\n  <link rel=\"stylesheet\" href=\"https://cdn.datatables.net/1.13.6/css/dataTables.bootstrap5.min.css\">\n</head>\n<body>\n  <nav class=\"navbar navbar-expand-lg navbar-dark bg-dark mb-4\">\n    <div class=\"container-fluid\">\n      <a class=\"navbar-brand\" href=\"#\">SUS-PECIES</a>\n      <span class=\"navbar-text text-light\">A database for exploring chemical–species susceptibility interactions</span>\n    </div>\n  </nav>\n  <div class=\"container\">\n    <div class=\"row mb-3\">\n      <div class=\"col-md-4\">\n        <select id=\"chemFilter\" class=\"form-select\">\n          <option value=\"\">All Chemicals</option>\n").data

/-- One filter option (`sus.py`, line 42 resp. 50): the value is
interpolated verbatim, twice. -/
def renderOption (v : String) : List Char :=
  ("          <option value=\"").data ++ v.data ++ ("\">").data ++ v.data ++
    ("</option>\n").data

/-- Template text between the two option loops (`sus.py`, lines 44–48). -/
def docMid1 : List Char :=
  ("        </select>\n      </div>\n      <div class=\"col-md-4\">\n        <select id=\"spFilter\" class=\"form-select\">\n          <option value=\"\">All Species</option>\n").data

/-- Template text between the species options and the row loop
(`sus.py`, lines 52–60), including the table head row. -/
def docMid2 : List Char :=
  ("        </select>\n      </div>\n    </div>\n    <table id=\"susTable\" class=\"table table-striped table-bordered\" style=\"width:100%\">\n      <thead class=\"table-dark\"><tr>\n        <th>Chemical</th><th>Species</th><th>Gene</th>\n        <th>Interaction</th><th>Actions</th><th>PubMed</th>\n      </tr></thead>\n      <tbody>\n").data

/-- One badge span (`sus.py`, line 69). -/
def renderBadge (b : Badge) : List Char :=
  ("          <span class=\"badge ").data ++ b.cls.data ++ (" me-1\">").data ++
    b.txt.data ++ ("</span>\n").data

/-- One PubMed link (`sus.py`, line 74). -/
def pubLink (p : String) : List Char :=
  ("<a href=\"https://pubmed.ncbi.nlm.nih.gov/").data ++ p.data ++
    ("\" target=\"_blank\">").data ++ p.data ++ ("</a>").data

/-- The PubMed cell contents (`sus.py`, lines 73–75): links joined by a
comma-space, none after the last (`loop.last`). -/
def renderPids : List String → List Char
  | [] => []
  | [p] => pubLink p
  | p :: q :: ps => pubLink p ++ (", ").data ++ renderPids (q :: ps)

/-- One table row (`sus.py`, lines 62–77). -/
def renderRow (r : Row) : List Char :=
  ("      <tr>\n        <td>").data ++ r.Chemical.data ++
    ("</td>\n        <td>").data ++ r.Species.data ++
    ("</td>\n        <td>").data ++ r.GeneSymbol.data ++
    ("</td>\n        <td>").data ++ r.Interaction.data ++
    ("</td>\n        <td>\n").data ++ (r.Badges.map renderBadge).flatten ++
    ("        </td>\n        <td>\n          ").data ++ renderPids r.PubMedIDs ++
    ("\n        </td>\n      </tr>\n").data

/-- Template text after the row loop (`sus.py`, lines 79–100): table close
and the DataTables/filter script. -/
def docTail : List Char :=
  ("      </tbody>\n    </table>\n  </div>\n  <script src=\"https://code.jquery.com/jquery-3.7.1.min.js\"></script>\n  <script src=\"https://cdn.datatables.net/1.13.6/js/jquery.dataTables.min.js\"></script>\n  <script src=\"https://cdn.datatables.net/1.13.6/js/dataTables.bootstrap5.min.js\"></script>\n  <script>\n    $(document).ready(function() \x7b\n      var table = $('#susTable').DataTable(\x7b\n        pageLength: 10,\n        lengthMenu: [5, 10, 20, 50]\n      \x7d);\n      $('#chemFilter').on('change', function() \x7b\n        table.column(0).search(this.value).draw();\n      \x7d);\n      $('#spFilter').on('change', function() \x7b\n        table.column(1).search(this.value).draw();\n      \x7d);\n    \x7d);\n  </script>\n</body>\n</html>\n").data

/-- `tmpl.render(rows=rows, chems=chems, species_list=species_list)`
(`sus.py`, line 151), as the character sequence of the produced document. -/
def tmplRender (rows : List Row) (chems species_list : List String) : List Char :=
  docHead ++ (chems.map renderOption).flatten ++ docMid1 ++
    (species_list.map renderOption).flatten ++ docMid2 ++
    (rows.map renderRow).flatten ++ docTail

/-- Number of occurrences of `pat` in a character sequence: the number of
positions whose suffix starts with `pat`. -/
def countOcc (pat : List Char) : List Char → Nat
  | [] => 0
  | c :: cs => (if pat <+: c :: cs then 1 else 0) + countOcc pat cs

/-- No nonempty suffix of `a` shorter than `pat` is a prefix of `pat`:
appending text after `a` cannot create an occurrence of `pat` that
straddles the boundary. -/
def tailClean (pat a : List Char) : Prop :=
  ∀ s : List Char, s <:+ a → s ≠ [] → s.length < pat.length → ¬ s <+: pat

theorem prefix_of_append_of_le {p x y : List Char} (h : p <+: x ++ y)
    (hl : p.length ≤ x.length) : p <+: x := by
  rw [ List.prefix_iff_eq_take] at h ⊢
  rw [List.take_append_eq_append_take, Nat.sub_eq_zero_of_le hl,
    List.take_zero, List.append_nil] at h
  exact h

theorem middle_prefix {pat x y : List Char} (h : pat <+: x ++ y)
    (hl : x.length ≤ pat.length) : x <+: pat := by
  rcases h with ⟨t, ht⟩
  have h1 : List.take x.length (x ++ y) = x := List.take_left x y
  rw [← ht, List.take_append_eq_append_take, Nat.sub_eq_zero_of_le hl,
    List.take_zero, List.append_nil] at h1
  rw [← h1]
  exact List.take_prefix _ _

theorem countOcc_append (pat : List Char) :
    ∀ a b : List Char, tailClean pat a →
      countOcc pat (a ++ b) = countOcc pat a + countOcc pat b := by
  intro a
  induction a with
  | nil => intro b _; simp [countOcc]
  | cons c a' ih =>
    intro b hclean
    have hclean' : tailClean pat a' := fun s hs => hclean s
      (hs.trans (List.suffix_cons c a'))
    have hcond : (pat <+: c :: (a' ++ b)) ↔ (pat <+: c :: a') := by
      constructor
      · intro h
        by_cases hlen : pat.length ≤ (c :: a').length
        · exact prefix_of_append_of_le (by simpa using h) hlen
        · exfalso
          have hlt : (c :: a').length ≤ pat.length := by
            simp only [List.length_cons] at hlen ⊢
            omega
          have hxp : (c :: a') <+: pat := middle_prefix (by simpa using h) hlt
          refine hclean (c :: a') (List.suffix_refl _) (by simp) ?_ hxp
          simp only [List.length_cons] at hlen ⊢
          omega
      · intro h
        have h2 := h.trans (List.prefix_append (c :: a') b)
        simpa using h2
    rw [List.cons_append]
    simp only [countOcc]
    rw [ih b hclean']
    simp only [hcond]
    omega

theorem countOcc_eq_zero {hc : Char} {pt : List Char} :
    ∀ {a : List Char}, hc ∉ a → countOcc (hc :: pt) a = 0 := by
  intro a
  induction a with
  | nil => intro _; rfl
  | cons c cs ih =>
    intro h
    have h1 : ¬ (hc :: pt <+: c :: cs) := by
      intro hp
      rcases List.cons_prefix_cons.mp hp with ⟨rfl, _⟩
      exact h (List.mem_cons_self _ _)
    simp [countOcc, h1, ih (fun hm => h (List.mem_cons_of_mem _ hm))]

theorem tailClean_nil (pat : List Char) : tailClean pat [] := by
  intro s hs hne _
  rw [List.suffix_nil.mp hs] at hne
  exact absurd rfl hne

theorem tailClean_of_not_mem {hc : Char} {pt a : List Char} (h : hc ∉ a) :
    tailClean (hc :: pt) a := by
  intro s hs hne hlen hp
  cases s with
  | nil => exact hne rfl
  | cons x s' =>
    rcases List.cons_prefix_cons.mp hp with ⟨rfl, _⟩
    exact h (hs.subset (List.mem_cons_self _ _))

theorem suffix_of_append_le {s a b : List Char} (h : s <:+ a ++ b)
    (hl : s.length ≤ b.length) : s <:+ b := by
  rw [← List.reverse_prefix] at h ⊢
  rw [List.reverse_append] at h
  exact prefix_of_append_of_le h (by simpa using hl)

theorem tailClean_append {pat a b : List Char} (hb : tailClean pat b)
    (hlen : pat.length ≤ b.length + 1) : tailClean pat (a ++ b) := by
  intro s hs hne hl
  exact hb s (suffix_of_append_le hs (by omega)) hne hl

theorem countOcc_flatten (pat : List Char) :
    ∀ ps : List (List Char), (∀ p ∈ ps, tailClean pat p) →
      countOcc pat ps.flatten = (ps.map (countOcc pat)).sum := by
  intro ps
  induction ps with
  | nil => intro _; rfl
  | cons p ps ih =>
    intro h
    rw [List.flatten_cons, countOcc_append pat p _ (h p (by simp)),
      List.map_cons, List.sum_cons, ih (fun q hq => h q (List.mem_cons_of_mem _ hq))]

theorem tailClean_flatten {pat : List Char} :
    ∀ ps : List (List Char), (∀ p ∈ ps, tailClean pat p) →
      (∀ p ∈ ps, pat.length ≤ p.length + 1) →
      tailClean pat ps.flatten := by
  intro ps
  induction ps with
  | nil => intro _ _; exact tailClean_nil pat
  | cons p ps ih =>
    intro h hl
    cases ps with
    | nil =>
      rw [List.flatten_cons, List.flatten_nil, List.append_nil]
      exact h p (by simp)
    | cons q qs =>
      rw [List.flatten_cons]
      refine tailClean_append
        (ih (fun r hr => h r (List.mem_cons_of_mem _ hr))
            (fun r hr => hl r (List.mem_cons_of_mem _ hr))) ?_
      have h1 : pat.length ≤ q.length + 1 :=
        hl q (List.mem_cons_of_mem _ (List.mem_cons_self _ _))
      have h2 : q.length ≤ (q :: qs).flatten.length := by
        rw [List.flatten_cons, List.length_append]
        omega
      omega

/-- Decidable sufficient check for `tailClean` on concrete text: for each
candidate suffix length below `pat.length`, the corresponding suffix of
`a` is not a prefix of `pat`. -/
def tailCleanB (pat a : List Char) : Bool :=
  (List.range pat.length).all fun k =>
    k == 0 || !((a.drop (a.length - k)).isPrefixOf pat)

theorem tailClean_of_B {pat a : List Char} (h : tailCleanB pat a = true) :
    tailClean pat a := by
  intro s hs hne hlen hp
  rcases hs with ⟨t, ht⟩
  have hdrop : a.drop (a.length - s.length) = s := by
    rw [← ht, List.length_append, Nat.add_sub_cancel, List.drop_left]
  have hk := (List.all_eq_true.mp h) s.length (List.mem_range.mpr hlen)
  rw [hdrop] at hk
  have h0 : (s.length == 0) = false := by
    cases s with
    | nil => exact absurd rfl hne
    | cons x s' => rfl
  rw [h0, Bool.false_or] at hk
  simp [isPrefixOf_eq_true_iff.mpr hp] at hk

theorem sum_map_one {α : Type} (l : List α) :
    (l.map fun _ => (1 : Nat)).sum = l.length := by
  induction l with
  | nil => rfl
  | cons x l ih => simp [ih]; omega

/-- The table-row open tag, counted to count row elements. -/
def trTag : List Char := "<tr>".data

/-- The option-element open text, counted to count filter options. -/
def optTag : List Char := "<option".data

/-- The string contains no markup-opening character. -/
def noLT (s : String) : Prop := '<' ∉ s.data

/-- Every string the template interpolates for this row is markup-free. -/
def RowClean (r : Row) : Prop :=
  noLT r.Chemical ∧ noLT r.Species ∧ noLT r.GeneSymbol ∧ noLT r.Interaction ∧
    (∀ b ∈ r.Badges, noLT b.cls ∧ noLT b.txt) ∧ ∀ p ∈ r.PubMedIDs, noLT p

instance (s : String) : Decidable (noLT s) :=
  inferInstanceAs (Decidable ('<' ∉ s.data))

instance (r : Row) : Decidable (RowClean r) := by
  unfold RowClean
  infer_instance

set_option maxRecDepth 1000000

theorem getLast?_append_chain {a b : List Char} {z : Char}
    (h : b.getLast? = some z) : (a ++ b).getLast? = some z := by
  have hb : b ≠ [] := by intro h0; rw [h0] at h; simp at h
  rw [List.getLast?_append_of_ne_nil _ hb]
  exact h

/-- A sequence ending in a character that ends no proper prefix of `pat`
cannot leak a partial occurrence of `pat` over its right boundary. -/
theorem tailClean_of_last {pat a : List Char} {z : Char}
    (ha : a.getLast? = some z) (hz : z ∉ pat.dropLast) : tailClean pat a := by
  intro s hs hne hlen hp
  have hsl : s.getLast? = some z := by
    rcases hs with ⟨t, ht⟩
    rw [← ht] at ha
    rwa [List.getLast?_append_of_ne_nil _ hne] at ha
  have hslen : 1 ≤ s.length := by
    cases s with
    | nil => exact absurd rfl hne
    | cons x s' => simp
  apply hz
  have hget : ∀ n, n < s.length → pat[n]? = s[n]? := by
    intro n hn
    rcases hp with ⟨u, hu⟩
    rw [← hu, List.getElem?_append]
    simp [hn]
  have h2 : pat[s.length - 1]? = some z := by
    rw [hget (s.length - 1) (by omega), ← List.getLast?_eq_getElem?]
    exact hsl
  rw [List.dropLast_eq_take]
  have h3 : (List.take (pat.length - 1) pat)[s.length - 1]? = some z := by
    rw [List.getElem?_take, if_pos (by omega : s.length - 1 < pat.length - 1)]
    exact h2
  exact List.getElem?_mem h3

/-- A markup-free stretch followed by straddle-safe text is straddle-safe
for any pattern that opens with the markup character. -/
theorem tailClean_clean_append {pt v b : List Char}
    (hv : '<' ∉ v) (hb : tailClean ('<' :: pt) b) :
    tailClean ('<' :: pt) (v ++ b) := by
  intro s hs hne hlen hp
  cases s with
  | nil => exact hne rfl
  | cons x s' =>
    obtain ⟨rfl, hp'⟩ := List.cons_prefix_cons.mp hp
    by_cases hcase : ('<' :: s').length ≤ b.length
    · exact hb _ (suffix_of_append_le hs hcase) (by simp) hlen hp
    · apply hv
      rcases hs with ⟨t, ht⟩
      have hlen2 : t.length < v.length := by
        have hL := congrArg List.length ht
        simp only [List.length_append, List.length_cons] at hL hcase ⊢
        omega
      have hat : (t ++ '<' :: s')[t.length]? = some '<' := by
        rw [List.getElem?_append_right (le_refl _), Nat.sub_self]
        simp
      rw [ht, List.getElem?_append, if_pos hlen2] at hat
      exact List.getElem?_mem hat

theorem countOcc_tr_zero {v : List Char} (hv : '<' ∉ v) : countOcc trTag v = 0 :=
  countOcc_eq_zero hv

theorem countOcc_opt_zero {v : List Char} (hv : '<' ∉ v) : countOcc optTag v = 0 :=
  countOcc_eq_zero hv

theorem tailClean_tr_var {v : List Char} (hv : '<' ∉ v) : tailClean trTag v :=
  tailClean_of_not_mem hv

theorem tailClean_opt_var {v : List Char} (hv : '<' ∉ v) : tailClean optTag v :=
  tailClean_of_not_mem hv

theorem getLast?_flatten {z : Char} :
    ∀ {ps : List (List Char)}, (∀ p ∈ ps, p.getLast? = some z) → ps ≠ [] →
      ps.flatten.getLast? = some z := by
  intro ps
  induction ps with
  | nil => intro _ h; exact absurd rfl h
  | cons p ps ih =>
    intro h _
    cases ps with
    | nil =>
      rw [List.flatten_cons, List.flatten_nil, List.append_nil]
      exact h p (by simp)
    | cons q qs =>
      rw [List.flatten_cons]
      exact getLast?_append_chain
        (ih (fun r hr => h r (List.mem_cons_of_mem _ hr)) (by simp))

theorem tailClean_flatten_last {pat : List Char} {z : Char} (hz : z ∉ pat.dropLast)
    {ps : List (List Char)} (h : ∀ p ∈ ps, p.getLast? = some z) :
    tailClean pat ps.flatten := by
  cases hps : ps with
  | nil => exact tailClean_nil pat
  | cons q qs =>
    exact tailClean_of_last (getLast?_flatten (hps ▸ h) (by simp)) hz

theorem getLast?_renderOption (v : String) :
    (renderOption v).getLast? = some '\n' := by
  rw [renderOption]
  repeat apply getLast?_append_chain
  decide

theorem getLast?_renderBadge (b : Badge) :
    (renderBadge b).getLast? = some '\n' := by
  rw [renderBadge]
  repeat apply getLast?_append_chain
  decide

theorem getLast?_pubLink (p : String) : (pubLink p).getLast? = some '>' := by
  rw [pubLink]
  repeat apply getLast?_append_chain
  decide

theorem getLast?_renderPids (p : String) (ps : List String) :
    (renderPids (p :: ps)).getLast? = some '>' := by
  induction ps generalizing p with
  | nil => rw [renderPids]; exact getLast?_pubLink p
  | cons q qs ih =>
    rw [renderPids]
    apply getLast?_append_chain
    exact ih q

theorem getLast?_renderRow (r : Row) : (renderRow r).getLast? = some '\n' := by
  rw [renderRow]
  repeat apply getLast?_append_chain
  decide

theorem countOcc_renderOption_opt (v : String) (hv : noLT v) :
    countOcc optTag (renderOption v) = 1 := by
  rw [renderOption]
  simp only [List.append_assoc]
  rw [countOcc_append _ (("          <option value=\"").data) _
      (tailClean_of_last (z := '"') (by decide) (by decide)),
    countOcc_append _ v.data _ (tailClean_opt_var hv),
    countOcc_append _ (("\">").data) _
      (tailClean_of_last (z := '>') (by decide) (by decide)),
    countOcc_append _ v.data _ (tailClean_opt_var hv),
    countOcc_opt_zero hv]
  decide

theorem countOcc_renderOption_tr (v : String) (hv : noLT v) :
    countOcc trTag (renderOption v) = 0 := by
  rw [renderOption]
  simp only [List.append_assoc]
  rw [countOcc_append _ (("          <option value=\"").data) _
      (tailClean_of_last (z := '"') (by decide) (by decide)),
    countOcc_append _ v.data _ (tailClean_tr_var hv),
    countOcc_append _ (("\">").data) _
      (tailClean_of_last (z := '>') (by decide) (by decide)),
    countOcc_append _ v.data _ (tailClean_tr_var hv),
    countOcc_tr_zero hv]
  decide

theorem countOcc_renderBadge_tr (b : Badge) (h1 : noLT b.cls) (h2 : noLT b.txt) :
    countOcc trTag (renderBadge b) = 0 := by
  rw [renderBadge]
  simp only [List.append_assoc]
  rw [countOcc_append _ (("          <span class=\"badge ").data) _
      (tailClean_of_last (z := ' ') (by decide) (by decide)),
    countOcc_append _ b.cls.data _ (tailClean_tr_var h1),
    countOcc_append _ ((" me-1\">").data) _
      (tailClean_of_last (z := '>') (by decide) (by decide)),
    countOcc_append _ b.txt.data _ (tailClean_tr_var h2),
    countOcc_tr_zero h1, countOcc_tr_zero h2]
  decide

theorem countOcc_renderBadge_opt (b : Badge) (h1 : noLT b.cls) (h2 : noLT b.txt) :
    countOcc optTag (renderBadge b) = 0 := by
  rw [renderBadge]
  simp only [List.append_assoc]
  rw [countOcc_append _ (("          <span class=\"badge ").data) _
      (tailClean_of_last (z := ' ') (by decide) (by decide)),
    countOcc_append _ b.cls.data _ (tailClean_opt_var h1),
    countOcc_append _ ((" me-1\">").data) _
      (tailClean_of_last (z := '>') (by decide) (by decide)),
    countOcc_append _ b.txt.data _ (tailClean_opt_var h2),
    countOcc_opt_zero h1, countOcc_opt_zero h2]
  decide

theorem countOcc_pubLink_tr (p : String) (hp : noLT p) :
    countOcc trTag (pubLink p) = 0 := by
  rw [pubLink]
  simp only [List.append_assoc]
  rw [countOcc_append _ (("<a href=\"https://pubmed.ncbi.nlm.nih.gov/").data) _
      (tailClean_of_last (z := '/') (by decide) (by decide)),
    countOcc_append _ p.data _ (tailClean_tr_var hp),
    countOcc_append _ (("\" target=\"_blank\">").data) _
      (tailClean_of_last (z := '>') (by decide) (by decide)),
    countOcc_append _ p.data _ (tailClean_tr_var hp),
    countOcc_tr_zero hp]
  decide

theorem countOcc_pubLink_opt (p : String) (hp : noLT p) :
    countOcc optTag (pubLink p) = 0 := by
  rw [pubLink]
  simp only [List.append_assoc]
  rw [countOcc_append _ (("<a href=\"https://pubmed.ncbi.nlm.nih.gov/").data) _
      (tailClean_of_last (z := '/') (by decide) (by decide)),
    countOcc_append _ p.data _ (tailClean_opt_var hp),
    countOcc_append _ (("\" target=\"_blank\">").data) _
      (tailClean_of_last (z := '>') (by decide) (by decide)),
    countOcc_append _ p.data _ (tailClean_opt_var hp),
    countOcc_opt_zero hp]
  decide

theorem countOcc_renderPids_tr :
    ∀ ps : List String, (∀ p ∈ ps, noLT p) → countOcc trTag (renderPids ps) = 0 := by
  intro ps
  induction ps with
  | nil => intro _; rfl
  | cons p ps ih =>
    intro h
    cases ps with
    | nil => rw [renderPids]; exact countOcc_pubLink_tr p (h p (by simp))
    | cons q qs =>
      rw [renderPids]
      simp only [List.append_assoc]
      rw [countOcc_append _ (pubLink p) _
          (tailClean_of_last (z := '>') (getLast?_pubLink p) (by decide)),
        countOcc_append _ ((", ").data) _
          (tailClean_of_last (z := ' ') (by decide) (by decide)),
        countOcc_pubLink_tr p (h p (by simp)),
        ih (fun r hr => h r (List.mem_cons_of_mem _ hr))]
      decide

theorem countOcc_renderPids_opt :
    ∀ ps : List String, (∀ p ∈ ps, noLT p) → countOcc optTag (renderPids ps) = 0 := by
  intro ps
  induction ps with
  | nil => intro _; rfl
  | cons p ps ih =>
    intro h
    cases ps with
    | nil => rw [renderPids]; exact countOcc_pubLink_opt p (h p (by simp))
    | cons q qs =>
      rw [renderPids]
      simp only [List.append_assoc]
      rw [countOcc_append _ (pubLink p) _
          (tailClean_of_last (z := '>') (getLast?_pubLink p) (by decide)),
        countOcc_append _ ((", ").data) _
          (tailClean_of_last (z := ' ') (by decide) (by decide)),
        countOcc_pubLink_opt p (h p (by simp)),
        ih (fun r hr => h r (List.mem_cons_of_mem _ hr))]
      decide

theorem tailClean_renderPids_tr (ps : List String) :
    tailClean trTag (renderPids ps) := by
  cases ps with
  | nil => exact tailClean_nil _
  | cons p ps => exact tailClean_of_last (getLast?_renderPids p ps) (by decide)

theorem tailClean_renderPids_opt (ps : List String) :
    tailClean optTag (renderPids ps) := by
  cases ps with
  | nil => exact tailClean_nil _
  | cons p ps => exact tailClean_of_last (getLast?_renderPids p ps) (by decide)

theorem getLast?_badges (bs : List Badge) :
    ∀ p ∈ bs.map renderBadge, p.getLast? = some '\n' := by
  intro p hp
  obtain ⟨b, _, rfl⟩ := List.mem_map.mp hp
  exact getLast?_renderBadge b

theorem countOcc_badges_tr (bs : List Badge)
    (h : ∀ b ∈ bs, noLT b.cls ∧ noLT b.txt) :
    countOcc trTag ((bs.map renderBadge).flatten) = 0 := by
  have htc : ∀ p ∈ bs.map renderBadge, tailClean trTag p := by
    intro p hp
    obtain ⟨b, _, rfl⟩ := List.mem_map.mp hp
    exact tailClean_of_last (getLast?_renderBadge b) (by decide)
  rw [countOcc_flatten _ _ htc, List.map_map]
  apply List.sum_eq_zero
  intro x hx
  obtain ⟨b, hb, rfl⟩ := List.mem_map.mp hx
  exact countOcc_renderBadge_tr b (h b hb).1 (h b hb).2

theorem countOcc_badges_opt (bs : List Badge)
    (h : ∀ b ∈ bs, noLT b.cls ∧ noLT b.txt) :
    countOcc optTag ((bs.map renderBadge).flatten) = 0 := by
  have htc : ∀ p ∈ bs.map renderBadge, tailClean optTag p := by
    intro p hp
    obtain ⟨b, _, rfl⟩ := List.mem_map.mp hp
    exact tailClean_of_last (getLast?_renderBadge b) (by decide)
  rw [countOcc_flatten _ _ htc, List.map_map]
  apply List.sum_eq_zero
  intro x hx
  obtain ⟨b, hb, rfl⟩ := List.mem_map.mp hx
  exact countOcc_renderBadge_opt b (h b hb).1 (h b hb).2

theorem countOcc_renderRow_tr (r : Row) (hr : RowClean r) :
    countOcc trTag (renderRow r) = 1 := by
  obtain ⟨h1, h2, h3, h4, h5, h6⟩ := hr
  have hbl : ∀ p ∈ r.Badges.map renderBadge, p.getLast? = some '\n' :=
    getLast?_badges r.Badges
  rw [renderRow]
  simp only [List.append_assoc]
  rw [countOcc_append _ (("      <tr>\n        <td>").data) _
      (tailClean_of_last (z := '>') (by decide) (by decide)),
    countOcc_append _ r.Chemical.data _ (tailClean_tr_var h1),
    countOcc_append _ (("</td>\n        <td>").data) _
      (tailClean_of_last (z := '>') (by decide) (by decide)),
    countOcc_append _ r.Species.data _ (tailClean_tr_var h2),
    countOcc_append _ (("</td>\n        <td>").data) _
      (tailClean_of_last (z := '>') (by decide) (by decide)),
    countOcc_append _ r.GeneSymbol.data _ (tailClean_tr_var h3),
    countOcc_append _ (("</td>\n        <td>").data) _
      (tailClean_of_last (z := '>') (by decide) (by decide)),
    countOcc_append _ r.Interaction.data _ (tailClean_tr_var h4),
    countOcc_append _ (("</td>\n        <td>\n").data) _
      (tailClean_of_last (z := '\n') (by decide) (by decide)),
    countOcc_append _ ((r.Badges.map renderBadge).flatten) _
      (tailClean_flatten_last (by decide) hbl),
    countOcc_append _ (("        </td>\n        <td>\n          ").data) _
      (tailClean_of_last (z := ' ') (by decide) (by decide)),
    countOcc_append _ (renderPids r.PubMedIDs) _ (tailClean_renderPids_tr _),
    countOcc_tr_zero h1, countOcc_tr_zero h2, countOcc_tr_zero h3,
    countOcc_tr_zero h4, countOcc_badges_tr _ h5, countOcc_renderPids_tr _ h6]
  decide

theorem countOcc_renderRow_opt (r : Row) (hr : RowClean r) :
    countOcc optTag (renderRow r) = 0 := by
  obtain ⟨h1, h2, h3, h4, h5, h6⟩ := hr
  have hbl : ∀ p ∈ r.Badges.map renderBadge, p.getLast? = some '\n' :=
    getLast?_badges r.Badges
  rw [renderRow]
  simp only [List.append_assoc]
  rw [countOcc_append _ (("      <tr>\n        <td>").data) _
      (tailClean_of_last (z := '>') (by decide) (by decide)),
    countOcc_append _ r.Chemical.data _ (tailClean_opt_var h1),
    countOcc_append _ (("</td>\n        <td>").data) _
      (tailClean_of_last (z := '>') (by decide) (by decide)),
    countOcc_append _ r.Species.data _ (tailClean_opt_var h2),
    countOcc_append _ (("</td>\n        <td>").data) _
      (tailClean_of_last (z := '>') (by decide) (by decide)),
    countOcc_append _ r.GeneSymbol.data _ (tailClean_opt_var h3),
    countOcc_append _ (("</td>\n        <td>").data) _
      (tailClean_of_last (z := '>') (by decide) (by decide)),
    countOcc_append _ r.Interaction.data _ (tailClean_opt_var h4),
    countOcc_append _ (("</td>\n        <td>\n").data) _
      (tailClean_of_last (z := '\n') (by decide) (by decide)),
    countOcc_append _ ((r.Badges.map renderBadge).flatten) _
      (tailClean_flatten_last (by decide) hbl),
    countOcc_append _ (("        </td>\n        <td>\n          ").data) _
      (tailClean_of_last (z := ' ') (by decide) (by decide)),
    countOcc_append _ (renderPids r.PubMedIDs) _ (tailClean_renderPids_opt _),
    countOcc_opt_zero h1, countOcc_opt_zero h2, countOcc_opt_zero h3,
    countOcc_opt_zero h4, countOcc_badges_opt _ h5, countOcc_renderPids_opt _ h6]
  decide

theorem getLast?_options (vs : List String) :
    ∀ p ∈ vs.map renderOption, p.getLast? = some '\n' := by
  intro p hp
  obtain ⟨v, _, rfl⟩ := List.mem_map.mp hp
  exact getLast?_renderOption v

theorem getLast?_rows (rows : List Row) :
    ∀ p ∈ rows.map renderRow, p.getLast? = some '\n' := by
  intro p hp
  obtain ⟨r, _, rfl⟩ := List.mem_map.mp hp
  exact getLast?_renderRow r

theorem countOcc_options_opt (vs : List String) (h : ∀ v ∈ vs, noLT v) :
    countOcc optTag ((vs.map renderOption).flatten) = vs.length := by
  have htc : ∀ p ∈ vs.map renderOption, tailClean optTag p := by
    intro p hp
    obtain ⟨v, _, rfl⟩ := List.mem_map.mp hp
    exact tailClean_of_last (getLast?_renderOption v) (by decide)
  have hmap : List.map (countOcc optTag ∘ renderOption) vs =
      List.map (fun _ => (1 : Nat)) vs :=
    List.map_congr_left (fun v hv => countOcc_renderOption_opt v (h v hv))
  rw [countOcc_flatten _ _ htc, List.map_map, hmap, sum_map_one]

theorem countOcc_options_tr (vs : List String) (h : ∀ v ∈ vs, noLT v) :
    countOcc trTag ((vs.map renderOption).flatten) = 0 := by
  have htc : ∀ p ∈ vs.map renderOption, tailClean trTag p := by
    intro p hp
    obtain ⟨v, _, rfl⟩ := List.mem_map.mp hp
    exact tailClean_of_last (getLast?_renderOption v) (by decide)
  rw [countOcc_flatten _ _ htc, List.map_map]
  apply List.sum_eq_zero
  intro x hx
  obtain ⟨v, hv, rfl⟩ := List.mem_map.mp hx
  exact countOcc_renderOption_tr v (h v hv)

theorem countOcc_rows_tr (rows : List Row) (h : ∀ r ∈ rows, RowClean r) :
    countOcc trTag ((rows.map renderRow).flatten) = rows.length := by
  have htc : ∀ p ∈ rows.map renderRow, tailClean trTag p := by
    intro p hp
    obtain ⟨r, _, rfl⟩ := List.mem_map.mp hp
    exact tailClean_of_last (getLast?_renderRow r) (by decide)
  have hmap : List.map (countOcc trTag ∘ renderRow) rows =
      List.map (fun _ => (1 : Nat)) rows :=
    List.map_congr_left (fun r hr => countOcc_renderRow_tr r (h r hr))
  rw [countOcc_flatten _ _ htc, List.map_map, hmap, sum_map_one]

theorem countOcc_rows_opt (rows : List Row) (h : ∀ r ∈ rows, RowClean r) :
    countOcc optTag ((rows.map renderRow).flatten) = 0 := by
  have htc : ∀ p ∈ rows.map renderRow, tailClean optTag p := by
    intro p hp
    obtain ⟨r, _, rfl⟩ := List.mem_map.mp hp
    exact tailClean_of_last (getLast?_renderRow r) (by decide)
  rw [countOcc_flatten _ _ htc, List.map_map]
  apply List.sum_eq_zero
  intro x hx
  obtain ⟨r, hr, rfl⟩ := List.mem_map.mp hx
  exact countOcc_renderRow_opt r (h r hr)

/-- C7 (amended): provided every interpolated value is markup-free (contains
no `<`), the rendered document contains exactly one table-row element per
record — the `1 +` is the fixed table-head row — in input order, and exactly
one option element per vocabulary entry plus the two fixed "All ..."
options. -/
theorem sus_C7 (rows : List Row) (chems species_list : List String)
    (hrows : ∀ r ∈ rows, RowClean r) (hchems : ∀ c ∈ chems, noLT c)
    (hsp : ∀ s ∈ species_list, noLT s) :
    countOcc trTag (tmplRender rows chems species_list) = 1 + rows.length ∧
      countOcc optTag (tmplRender rows chems species_list) =
        2 + chems.length + species_list.length := by
  constructor
  · rw [tmplRender]
    simp only [List.append_assoc]
    rw [countOcc_append _ docHead _
        (tailClean_of_last (z := '\n') (by decide) (by decide)),
      countOcc_append _ ((chems.map renderOption).flatten) _
        (tailClean_flatten_last (by decide) (getLast?_options chems)),
      countOcc_append _ docMid1 _
        (tailClean_of_last (z := '\n') (by decide) (by decide)),
      countOcc_append _ ((species_list.map renderOption).flatten) _
        (tailClean_flatten_last (by decide) (getLast?_options species_list)),
      countOcc_append _ docMid2 _
        (tailClean_of_last (z := '\n') (by decide) (by decide)),
      countOcc_append _ ((rows.map renderRow).flatten) _
        (tailClean_flatten_last (by decide) (getLast?_rows rows)),
      countOcc_options_tr chems hchems, countOcc_options_tr species_list hsp,
      countOcc_rows_tr rows hrows,
      (by decide : countOcc trTag docHead = 0),
      (by decide : countOcc trTag docMid1 = 0),
      (by decide : countOcc trTag docMid2 = 1),
      (by decide : countOcc trTag docTail = 0)]
    omega
  · rw [tmplRender]
    simp only [List.append_assoc]
    rw [countOcc_append _ docHead _
        (tailClean_of_last (z := '\n') (by decide) (by decide)),
      countOcc_append _ ((chems.map renderOption).flatten) _
        (tailClean_flatten_last (by decide) (getLast?_options chems)),
      countOcc_append _ docMid1 _
        (tailClean_of_last (z := '\n') (by decide) (by decide)),
      countOcc_append _ ((species_list.map renderOption).flatten) _
        (tailClean_flatten_last (by decide) (getLast?_options species_list)),
      countOcc_append _ docMid2 _
        (tailClean_of_last (z := '\n') (by decide) (by decide)),
      countOcc_append _ ((rows.map renderRow).flatten) _
        (tailClean_flatten_last (by decide) (getLast?_rows rows)),
      countOcc_options_opt chems hchems, countOcc_options_opt species_list hsp,
      countOcc_rows_opt rows hrows,
      (by decide : countOcc optTag docHead = 1),
      (by decide : countOcc optTag docMid1 = 1),
      (by decide : countOcc optTag docMid2 = 0),
      (by decide : countOcc optTag docTail = 0)]
    omega

/-- C7 witness: one clean record and one entry per vocabulary give two
table-row elements (head row plus the record) and four options. -/
theorem sus_C7_witness :
    countOcc trTag (tmplRender
        [{ Chemical := "Caffeine", Species := "Homo sapiens",
           GeneSymbol := "CYP1A2", Interaction := "increases activity",
           Badges := [{ cls := "bg-success", txt := "increases activity" }],
           PubMedIDs := ["12345"] }] ["Caffeine"] ["Homo sapiens"]) = 2 ∧
      countOcc optTag (tmplRender
        [{ Chemical := "Caffeine", Species := "Homo sapiens",
           GeneSymbol := "CYP1A2", Interaction := "increases activity",
           Badges := [{ cls := "bg-success", txt := "increases activity" }],
           PubMedIDs := ["12345"] }] ["Caffeine"] ["Homo sapiens"]) = 4 := by
  have h := sus_C7
    [{ Chemical := "Caffeine", Species := "Homo sapiens",
       GeneSymbol := "CYP1A2", Interaction := "increases activity",
       Badges := [{ cls := "bg-success", txt := "increases activity" }],
       PubMedIDs := ["12345"] }] ["Caffeine"] ["Homo sapiens"]
    (by decide) (by decide) (by decide)
  simpa using h

/-- A record whose Chemical field itself contains row markup (possible since
nothing is escaped). -/
def badRow : Row :=
  { Chemical := "<tr><td>boom</td></tr>", Species := "", GeneSymbol := "",
    Interaction := "", Badges := [], PubMedIDs := [] }

/-- C7 counterexample: with the unescaped renderer, a record whose Chemical
text contains `<tr>` markup produces three table-row elements instead of the
claimed one-per-record (head row plus one record would be two). -/
theorem sus_C7_counterexample :
    countOcc trTag (tmplRender [badRow] [] []) = 3 ∧
      countOcc trTag (tmplRender [badRow] [] []) ≠
        1 + ([badRow] : List Row).length := by
  have h : countOcc trTag (tmplRender [badRow] [] []) = 3 := by
    rw [tmplRender]
    simp only [List.map_nil, List.flatten_nil, List.map_cons, List.flatten_cons,
      List.nil_append, List.append_nil, List.append_assoc]
    rw [countOcc_append _ docHead _
        (tailClean_of_last (z := '\n') (by decide) (by decide)),
      countOcc_append _ docMid1 _
        (tailClean_of_last (z := '\n') (by decide) (by decide)),
      countOcc_append _ docMid2 _
        (tailClean_of_last (z := '\n') (by decide) (by decide)),
      countOcc_append _ (renderRow badRow) _
        (tailClean_of_last (z := '\n') (getLast?_renderRow badRow) (by decide)),
      (by decide : countOcc trTag docHead = 0),
      (by decide : countOcc trTag docMid1 = 0),
      (by decide : countOcc trTag docMid2 = 1),
      (by decide : countOcc trTag docTail = 0),
      (by decide : countOcc trTag (renderRow badRow) = 2)]
  exact ⟨h, by rw [h]; decide⟩

/-- C2 (code refutation): `jinja2.Template` defaults to `autoescape=False`,
so interpolation is verbatim: a vocabulary entry containing a script tag is
emitted raw into the option element, character for character, and the open
document then contains the injected tag twice. -/
theorem sus_C2_bug :
    renderOption "<script>alert(1)</script>" =
      ("          <option value=\"<script>alert(1)</script>\"><script>alert(1)</script></option>\n").data ∧
      countOcc (("<script>").data) (renderOption "<script>alert(1)</script>") = 2 := by
  constructor
  · rfl
  · decide

/-!
Model of the data-loading call (`sus.py`, lines 118–127):
`pd.read_csv(CTD_FILE, comment="#", header=None, names=FIELD_NAMES,
dtype=str, sep=",", quotechar='"', engine="python")` followed by
`.fillna("")`.  The python engine tokenizes each line with the csv module,
strips comments from the parsed fields, skips blank lines, and pads or
rejects rows against the expected column count.
-/

/-- One line through Python's `csv.reader` with `delimiter=","`,
`quotechar='"'` and the default `doublequote=True` (a doubled quote inside
a quoted field is a literal quote), as a character automaton: state 0 is
unquoted text, state 1 is inside quotes, state 2 has just seen a quote
while quoted (a second quote is a literal one, anything else ends the
quoted stretch).  A quoted field spanning physical lines is not
modelled. -/
def csvFieldsAux : Nat → List Char → List Char → List (List Char)
  | _, acc, [] => [acc.reverse]
  | 0, acc, c :: rest =>
    if c = ',' then acc.reverse :: csvFieldsAux 0 [] rest
    else if c = '"' then csvFieldsAux 1 acc rest
    else csvFieldsAux 0 (c :: acc) rest
  | 1, acc, c :: rest =>
    if c = '"' then csvFieldsAux 2 acc rest
    else csvFieldsAux 1 (c :: acc) rest
  | _, acc, c :: rest =>
    if c = '"' then csvFieldsAux 1 ('"' :: acc) rest
    else if c = ',' then acc.reverse :: csvFieldsAux 0 [] rest
    else csvFieldsAux 0 (c :: acc) rest

/-- The comma-separated, double-quote-quoted fields of one raw line. -/
def splitFields (cs : List Char) : List (List Char) := csvFieldsAux 0 [] cs

/-- The default `na_values` strings of pandas (`STR_NA_VALUES`); the
comment scan exempts fields equal to one of them. -/
def naValues : List (List Char) :=
  [("").data, ("#N/A").data, ("#N/A N/A").data, ("#NA").data,
    ("-1.#IND").data, ("-1.#QNAN").data, ("-NaN").data, ("-nan").data,
    ("1.#IND").data, ("1.#QNAN").data, ("<NA>").data, ("N/A").data,
    ("NA").data, ("NULL").data, ("NaN").data, ("None").data,
    ("n/a").data, ("nan").data, ("null").data]

/-- Pandas python-engine comment handling for `comment="#"`
(`PythonParser._check_comments`): scanning the already-split fields of a
row, the first field that contains `#` and is not itself a default
na-value string (`x in self.na_values`, e.g. `#N/A`) is cut at the `#` —
kept only if something precedes it — and every later field of the row is
discarded; na-value fields pass through whole (they later become NaN and
then `""` under `.fillna("")`). -/
def checkComments : List (List Char) → List (List Char)
  | [] => []
  | x :: xs =>
    if '#' ∈ x ∧ x ∉ naValues then
      (if x.takeWhile (· ≠ '#') = [] then [] else [x.takeWhile (· ≠ '#')])
    else x :: checkComments xs

/-- Pandas python-engine blank-line removal (`skip_blank_lines=True`,
`PythonParser._remove_empty_lines`): a row with no fields, or exactly one
field that strips to nothing, is dropped. -/
def isBlankRow (r : List (List Char)) : Bool :=
  match r with
  | [] => true
  | [f] => f.all (fun c => c.isWhitespace)
  | _ => false

/-- The data rows `pd.read_csv` tokenizes out of the file content: each
line split into fields, comment-stripped, with blank rows removed. -/
def processContent (content : List Char) : List (List (List Char)) :=
  ((pySplit '\n' content).map (fun l => checkComments (splitFields l))).filter
    (fun r => !isBlankRow r)

/-- Row assembly of `pd.read_csv` + `.fillna("")` (`sus.py`, lines
118–127), for `names=FIELD_NAMES` (11 names), `header=None`, `dtype=str`,
python engine, default `on_bad_lines="error"`:
* no surviving rows gives an empty frame (with explicit `names` pandas
  does not raise `EmptyDataError` on an empty source);
* the expected width is `max 11 w₀` for `w₀` the first row's width; when
  `w₀ > 11` the `w₀ - 11` leading columns become the implicit index, which
  `to_dict(orient="records")` later discards, so they are dropped here;
* a row wider than expected raises `ParserError`, aborting the whole read;
* a narrower row is right-padded with NaN and `.fillna("")` turns every
  NaN into the empty string.  (Default `na_values` strings such as `NA`
  are not modelled: ordinary fields are kept verbatim.) -/
def read_csv_rows (rows : List (List (List Char))) :
    Except String (List (List String)) :=
  match rows with
  | [] => .ok []
  | r0 :: _ =>
    if rows.any (fun r => decide (max 11 r0.length < r.length)) then
      .error "ParserError: Expected fields, saw more"
    else
      .ok (rows.map (fun r =>
        ((r ++ List.replicate (max 11 r0.length - r.length) []).drop
          (r0.length - 11)).map (fun f => String.mk f)))

/-- `pd.read_csv(...).fillna("")` on raw file content. -/
def read_csv (content : List Char) : Except String (List (List String)) :=
  read_csv_rows (processContent content)

/-- The full pipeline from file content to the rendered document
(`sus.py`, lines 118–151): read and pad records, normalize them, compute
the two vocabularies, render the template. -/
def run_pipeline (content : List Char) : Except String (List Char) :=
  (read_csv content).map (fun recs =>
    let rows := recs.map normalize
    tmplRender rows (sortedVocab (rows.map (fun r => r.Chemical)))
      (sortedVocab (rows.map (fun r => r.Species))))

/-- Input path constant `CTD_FILE` (`sus.py`, line 7). -/
def CTD_FILE : String := "ctd_data/CTD_chem_gene_ixns.csv"

/-- Output directory constant `OUTPUT_DIR` (`sus.py`, line 8). -/
def OUTPUT_DIR : String := "network_outputs"

/-- Output path `OUTPUT_HTML = os.path.join(OUTPUT_DIR, "index.html")`
(`sus.py`, line 9). -/
def OUTPUT_HTML : String := "network_outputs/index.html"

/-- A small filesystem: file contents by path plus the directories that
exist. -/
structure FileSys where
  files : List (String × String)
  dirs : List String
  deriving DecidableEq, Repr

def lookupFile (fs : FileSys) (p : String) : Option String :=
  (fs.files.find? (fun e => e.1 == p)).map (fun e => e.2)

def writeFile (fs : FileSys) (p : String) (content : String) : FileSys :=
  { fs with files := (p, content) :: fs.files.filter (fun e => e.1 != p) }

def makeDirs (fs : FileSys) (d : String) : FileSys :=
  { fs with dirs := if d ∈ fs.dirs then fs.dirs else d :: fs.dirs }

/-- The module-level script (`sus.py`, lines 118–157) as one run over a
filesystem, returning the final filesystem and the process exit status:
`pd.read_csv(CTD_FILE)` raises `FileNotFoundError` when the path is absent
or unreadable and the uncaught exception ends the process with a non-zero
status before `os.makedirs` (line 154) or `open` (line 155) ever run;
otherwise the document is built in memory, the output directory created
and the output file written, and the process exits 0 after printing its
confirmation line. -/
def sus_main (fs : FileSys) : FileSys × Nat :=
  match lookupFile fs CTD_FILE with
  | none => (fs, 1)
  | some content =>
    match run_pipeline content.data with
    | .error _ => (fs, 1)
    | .ok html =>
      (writeFile (makeDirs fs OUTPUT_DIR) OUTPUT_HTML (String.mk html), 0)

/-- C9: if the configured input file is absent (or unreadable), the run
exits with a non-zero status and the filesystem is returned untouched: the
output directory is not created and the output file is neither created nor
modified. -/
theorem sus_C9 (fs : FileSys) (h : lookupFile fs CTD_FILE = none) :
    sus_main fs = (fs, 1) := by
  rw [sus_main, h]

/-- C9 witness: on the empty filesystem the run exits non-zero and writes
nothing. -/
theorem sus_C9_witness : sus_main ⟨[], []⟩ = (⟨[], []⟩, 1) :=
  sus_C9 ⟨[], []⟩ rfl

theorem countOcc_doc_empty_tr : countOcc trTag (tmplRender [] [] []) = 1 := by
  rw [tmplRender]
  simp only [List.map_nil, List.flatten_nil, List.nil_append, List.append_assoc]
  rw [countOcc_append _ docHead _
      (tailClean_of_last (z := '\n') (by decide) (by decide)),
    countOcc_append _ docMid1 _
      (tailClean_of_last (z := '\n') (by decide) (by decide)),
    countOcc_append _ docMid2 _
      (tailClean_of_last (z := '\n') (by decide) (by decide)),
    (by decide : countOcc trTag docHead = 0),
    (by decide : countOcc trTag docMid1 = 0),
    (by decide : countOcc trTag docMid2 = 1),
    (by decide : countOcc trTag docTail = 0)]

theorem countOcc_doc_empty_opt : countOcc optTag (tmplRender [] [] []) = 2 := by
  rw [tmplRender]
  simp only [List.map_nil, List.flatten_nil, List.nil_append, List.append_assoc]
  rw [countOcc_append _ docHead _
      (tailClean_of_last (z := '\n') (by decide) (by decide)),
    countOcc_append _ docMid1 _
      (tailClean_of_last (z := '\n') (by decide) (by decide)),
    countOcc_append _ docMid2 _
      (tailClean_of_last (z := '\n') (by decide) (by decide)),
    (by decide : countOcc optTag docHead = 1),
    (by decide : countOcc optTag docMid1 = 1),
    (by decide : countOcc optTag docMid2 = 0),
    (by decide : countOcc optTag docTail = 0)]

/-- C3: an input yielding zero data rows (empty file, or only comment or
blank lines) is not an error: the pipeline produces the document rendered
from no records — its table body holds no row element beyond the fixed
head row and its two filters hold only the fixed "All ..." options. -/
theorem sus_C3 (content : List Char) (h : processContent content = []) :
    run_pipeline content = .ok (tmplRender [] [] []) ∧
      countOcc trTag (tmplRender [] [] []) = 1 ∧
      countOcc optTag (tmplRender [] [] []) = 2 := by
  refine ⟨?_, countOcc_doc_empty_tr, countOcc_doc_empty_opt⟩
  rw [run_pipeline, read_csv, h]
  simp [read_csv_rows, Except.map, sortedVocab, unique, List.insertionSort]

/-- C3 witness: a file holding one comment line and nothing else parses to
zero records and still renders the empty document. -/
theorem sus_C3_witness :
    run_pipeline ("# comment line\n".data) = .ok (tmplRender [] [] []) :=
  (sus_C3 ("# comment line\n".data) (by decide)).1

/-- C4 (amended): a row with fewer than 11 fields is recovered by padding
with empty strings, and every successfully parsed record has exactly 11
fields; but a row with strictly more fields than expected is not recovered:
it makes the whole read fail with `ParserError` (here stated for a file
whose first data row has at most 11 fields, so that the expected width is
the 11 configured names). -/
theorem sus_C4 :
    (∀ content : List Char, (∀ r ∈ processContent content, r.length ≤ 11) →
        read_csv content = .ok ((processContent content).map (fun r =>
          (r ++ List.replicate (11 - r.length) []).map (fun f => String.mk f)))) ∧
      (∀ (content : List Char) (recs : List (List String)),
        read_csv content = .ok recs → ∀ rec ∈ recs, rec.length = 11) ∧
      (∀ (content : List Char) (r0 : List (List Char))
          (rest : List (List (List Char))),
        processContent content = r0 :: rest → r0.length ≤ 11 →
        (∃ r ∈ rest, 11 < r.length) →
        read_csv content = .error "ParserError: Expected fields, saw more") := by
  refine ⟨?_, ?_, ?_⟩
  · intro content h
    rw [read_csv]
    cases hpc : processContent content with
    | nil => rfl
    | cons r0 rest =>
      rw [hpc] at h
      have h0 : r0.length ≤ 11 := h r0 (List.mem_cons_self _ _)
      have hmax : max 11 r0.length = 11 := Nat.max_eq_left h0
      rw [read_csv_rows, if_neg ?hany]
      case hany =>
        rw [List.any_eq_true]
        rintro ⟨r, hr, hlen⟩
        rw [hmax] at hlen
        exact absurd (h r hr) (by simpa using hlen)
      congr 1
      apply List.map_congr_left
      intro r _
      rw [hmax, show r0.length - 11 = 0 from Nat.sub_eq_zero_of_le h0,
        List.drop_zero]
  · intro content recs hok rec hrec
    rw [read_csv] at hok
    cases hpc : processContent content with
    | nil =>
      rw [hpc] at hok
      cases hok
      cases hrec
    | cons r0 rest =>
      rw [hpc, read_csv_rows] at hok
      by_cases hany :
          (r0 :: rest).any (fun r => decide (max 11 r0.length < r.length)) = true
      · rw [if_pos hany] at hok
        cases hok
      · rw [if_neg hany] at hok
        cases hok
        obtain ⟨r, hr, rfl⟩ := List.mem_map.mp hrec
        have hle : r.length ≤ max 11 r0.length := by
          by_contra hgt
          exact hany (List.any_eq_true.mpr ⟨r, hr, by simpa using hgt⟩)
        rw [List.length_map, List.length_drop, List.length_append,
          List.length_replicate]
        have h1 : 11 ≤ max 11 r0.length := Nat.le_max_left _ _
        have h2 : r0.length ≤ max 11 r0.length := Nat.le_max_right _ _
        omega
  · intro content r0 rest hpc h0 hex
    obtain ⟨r, hr, hlen⟩ := hex
    rw [read_csv, hpc, read_csv_rows, if_pos]
    rw [List.any_eq_true]
    refine ⟨r, List.mem_cons_of_mem _ hr, ?_⟩
    rw [Nat.max_eq_left h0]
    simpa using hlen

/-- C4 witness: a three-field row parses successfully into one record
padded to the 11 configured fields with empty strings. -/
theorem sus_C4_witness :
    read_csv ("a,b,c\n".data) =
      .ok [["a", "b", "c", "", "", "", "", "", "", "", ""]] := by
  have h := sus_C4.1 ("a,b,c\n".data) (by decide)
  rw [h]
  decide

/-- C4 counterexample: a file whose second row has 12 fields does not parse
with the extra field truncated or flagged — `pd.read_csv` raises
`ParserError` and the whole run fails, contradicting "never raises a fatal
error". -/
theorem sus_C4_counterexample :
    read_csv ("a,b,c,d,e,f,g,h,i,j,k\n1,2,3,4,5,6,7,8,9,10,11,12\n".data) =
      .error "ParserError: Expected fields, saw more" := by decide

theorem csvFieldsAux_no_quote :
    ∀ (cs : List Char) (acc : List Char), '"' ∉ cs →
      csvFieldsAux 0 acc cs =
        (acc.reverse ++ (pySplit ',' cs).headI) :: (pySplit ',' cs).tail := by
  intro cs
  induction cs with
  | nil => intro acc _; simp [csvFieldsAux, pySplit]
  | cons c cs ih =>
    intro acc h
    have hq : c ≠ '"' := fun hc => h (by simp [hc])
    have hcs : '"' ∉ cs := fun hm => h (List.mem_cons_of_mem _ hm)
    rcases hsplit : pySplit ',' cs with _ | ⟨q, qs⟩
    · exact absurd hsplit (pySplit_ne_nil ',' cs)
    · by_cases hc : c = ','
      · subst hc
        rw [show csvFieldsAux 0 acc (',' :: cs) = acc.reverse :: csvFieldsAux 0 [] cs
            from by simp [csvFieldsAux]]
        rw [ih [] hcs, hsplit, pySplit_cons_eq ',' ',' cs hsplit, if_pos rfl]
        simp
      · rw [show csvFieldsAux 0 acc (c :: cs) = csvFieldsAux 0 (c :: acc) cs
            from by simp [csvFieldsAux, hc, hq]]
        rw [ih (c :: acc) hcs, hsplit, pySplit_cons_eq ',' c cs hsplit, if_neg hc]
        simp

theorem splitFields_eq_pySplit {cs : List Char} (h : '"' ∉ cs) :
    splitFields cs = pySplit ',' cs := by
  rw [splitFields, csvFieldsAux_no_quote cs [] h]
  rcases hsplit : pySplit ',' cs with _ | ⟨q, qs⟩
  · exact absurd hsplit (pySplit_ne_nil ',' cs)
  · simp

/-- Trailing empty fields of a row, removed (used to state how the python
engine's field-level comment truncation compares to truncating the raw
line: the two differ exactly by trailing empty fields and blank-row
removal). -/
def rstripEmpty : List (List Char) → List (List Char)
  | [] => []
  | f :: r =>
    match rstripEmpty r with
    | [] => if f = [] then [] else [f]
    | q :: qs => f :: q :: qs

theorem rstrip_cons_nil {r : List (List Char)} (h : rstripEmpty r = [])
    (f : List Char) : rstripEmpty (f :: r) = if f = [] then [] else [f] := by
  simp only [rstripEmpty, h]

theorem rstrip_cons_cons {r : List (List Char)} {q : List Char}
    {qs : List (List Char)} (h : rstripEmpty r = q :: qs) (f : List Char) :
    rstripEmpty (f :: r) = f :: q :: qs := by
  simp only [rstripEmpty, h]

theorem checkComments_cons_of_mem {x : List Char} (h : '#' ∈ x)
    (hx : x ∉ naValues) (xs : List (List Char)) :
    checkComments (x :: xs) =
      if x.takeWhile (· ≠ '#') = [] then [] else [x.takeWhile (· ≠ '#')] := by
  simp only [checkComments, if_pos (And.intro h hx)]

theorem checkComments_cons_of_not_mem {x : List Char} (h : '#' ∉ x)
    (xs : List (List Char)) :
    checkComments (x :: xs) = x :: checkComments xs := by
  simp only [checkComments]
  rw [if_neg (fun hc => h hc.1)]

theorem checkComments_no_hash :
    ∀ {row : List (List Char)}, (∀ f ∈ row, '#' ∉ f) → checkComments row = row := by
  intro row
  induction row with
  | nil => intro _; rfl
  | cons x xs ih =>
    intro h
    rw [checkComments_cons_of_not_mem (h x (by simp)) xs,
      ih (fun f hf => h f (List.mem_cons_of_mem _ hf))]

theorem pySplit_mem_subset (sep : Char) (cs : List Char) :
    ∀ f ∈ pySplit sep cs, ∀ x ∈ f, x ∈ cs := by
  induction cs with
  | nil =>
    intro f hf x hx
    simp [pySplit] at hf
    rw [hf] at hx
    cases hx
  | cons c cs ih =>
    intro f hf x hx
    rcases hsplit : pySplit sep cs with _ | ⟨q, qs⟩
    · exact absurd hsplit (pySplit_ne_nil sep cs)
    · rw [pySplit_cons_eq sep c cs hsplit] at hf
      have hqmem : q ∈ pySplit sep cs := by
        rw [hsplit]; exact List.mem_cons_self q qs
      by_cases hc : c = sep
      · rw [if_pos hc] at hf
        rcases List.mem_cons.mp hf with rfl | hf
        · cases hx
        · exact List.mem_cons_of_mem _
            (ih f (by rw [hsplit]; exact hf) x hx)
      · rw [if_neg hc] at hf
        rcases List.mem_cons.mp hf with rfl | hf
        · rcases List.mem_cons.mp hx with rfl | hx
          · exact List.mem_cons_self _ _
          · exact List.mem_cons_of_mem _ (ih q hqmem x hx)
        · exact List.mem_cons_of_mem _
            (ih f (by rw [hsplit]; exact List.mem_cons_of_mem _ hf) x hx)

theorem takeWhile_all {p : Char → Bool} :
    ∀ {l : List Char}, (∀ x ∈ l, p x = true) → l.takeWhile p = l := by
  intro l
  induction l with
  | nil => intro _; rfl
  | cons c cs ih =>
    intro h
    rw [List.takeWhile_cons, if_pos (h c (by simp)),
      ih (fun x hx => h x (List.mem_cons_of_mem _ hx))]

theorem dropWhile_first (c : Char) :
    ∀ {l : List Char}, c ∈ l → ∃ b, l.dropWhile (· ≠ c) = c :: b := by
  intro l
  induction l with
  | nil => intro h; cases h
  | cons x xs ih =>
    intro h
    by_cases hx : x = c
    · subst hx
      exact ⟨xs, by rw [List.dropWhile_cons, if_neg (by simp)]⟩
    · have hmem : c ∈ xs := by
        rcases List.mem_cons.mp h with h1 | h1
        · exact absurd h1.symm hx
        · exact h1
      rcases ih hmem with ⟨b, hb⟩
      exact ⟨b, by rw [List.dropWhile_cons, if_pos (by simpa using hx)]; exact hb⟩

theorem takeWhile_append_hash :
    ∀ (a b : List Char), '#' ∉ a →
      ((a ++ '#' :: b).takeWhile (· ≠ '#')) = a := by
  intro a b
  induction a with
  | nil =>
    intro _
    rw [List.nil_append, List.takeWhile_cons, if_neg (by simp)]
  | cons c a ih =>
    intro h
    have hc : c ≠ '#' := fun hcc => h (by simp [hcc])
    have ha : '#' ∉ a := fun hm => h (List.mem_cons_of_mem _ hm)
    rw [List.cons_append, List.takeWhile_cons, if_pos (by simpa using hc), ih ha]

theorem rstrip_cc_split_fuel :
    ∀ (n : Nat) (a b : List Char), a.length ≤ n → '#' ∉ a →
      (∀ f ∈ pySplit ',' (a ++ '#' :: b), '#' ∈ f → f ∉ naValues) →
      rstripEmpty (checkComments (pySplit ',' (a ++ '#' :: b))) =
        rstripEmpty (pySplit ',' a) := by
  intro n
  induction n with
  | zero =>
    intro a b hlen _ hna
    have ha0 : a = [] := List.length_eq_zero.mp (Nat.le_zero.mp hlen)
    subst ha0
    rw [List.nil_append] at hna ⊢
    rcases hs : pySplit ',' b with _ | ⟨p, ps⟩
    · exact absurd hs (pySplit_ne_nil ',' b)
    · rw [pySplit_cons_eq ',' '#' b hs, if_neg (by decide)]
      have hna1 : ('#' :: p) ∉ naValues := by
        apply hna ('#' :: p) ?_ (by simp)
        rw [pySplit_cons_eq ',' '#' b hs, if_neg (by decide)]
        exact List.mem_cons_self _ _
      rw [checkComments_cons_of_mem (by simp) hna1 ps]
      rw [show ((('#' : Char) :: p).takeWhile (· ≠ '#')) = [] from by
        rw [List.takeWhile_cons, if_neg (by simp)]]
      rw [if_pos rfl]
      rfl
  | succ n ih =>
    intro a b hlen ha hna
    by_cases hcm : ',' ∈ a
    · rcases dropWhile_first ',' hcm with ⟨a2, ha2⟩
      have hdecomp : a = a.takeWhile (· ≠ ',') ++ ',' :: a2 := by
        conv_lhs => rw [← List.takeWhile_append_dropWhile (fun c => decide (c ≠ ',')) a]
        rw [ha2]
      have h1 : ',' ∉ a.takeWhile (· ≠ ',') := by
        intro hm
        have := List.mem_takeWhile_imp hm
        simp at this
      have ha1 : '#' ∉ a.takeWhile (· ≠ ',') :=
        fun hm => ha (( List.takeWhile_prefix _).subset hm)
      have ha2' : '#' ∉ a2 := by
        intro hm
        apply ha
        rw [hdecomp]
        exact List.mem_append_right _ (List.mem_cons_of_mem _ hm)
      have hlen2 : a2.length ≤ n := by
        have hL := congrArg List.length hdecomp
        rw [List.length_append, List.length_cons] at hL
        omega
      have e1 : a ++ '#' :: b = a.takeWhile (· ≠ ',') ++ ',' :: (a2 ++ '#' :: b) := by
        conv_lhs => rw [hdecomp]
        rw [List.append_assoc, List.cons_append]
      rw [e1, pySplit_append_sep _ h1, checkComments_cons_of_not_mem ha1 _]
      have hna2 : ∀ f ∈ pySplit ',' (a2 ++ '#' :: b), '#' ∈ f → f ∉ naValues := by
        intro f hf hfh
        apply hna f ?_ hfh
        rw [e1, pySplit_append_sep _ h1]
        exact List.mem_cons_of_mem _ hf
      have hih := ih a2 b hlen2 ha2' hna2
      rw [show pySplit ',' a = a.takeWhile (· ≠ ',') :: pySplit ',' a2 from by
        conv_lhs => rw [hdecomp]
        exact pySplit_append_sep _ h1]
      rcases hr : rstripEmpty (pySplit ',' a2) with _ | ⟨y, ys⟩
      · rw [rstrip_cons_nil (hih.trans hr) _, rstrip_cons_nil hr _]
      · rw [rstrip_cons_cons (hih.trans hr) _, rstrip_cons_cons hr _]
    · by_cases hcb : ',' ∈ b
      · rcases dropWhile_first ',' hcb with ⟨b2, hb2⟩
        have hdecompb : b = b.takeWhile (· ≠ ',') ++ ',' :: b2 := by
          conv_lhs => rw [← List.takeWhile_append_dropWhile (fun c => decide (c ≠ ',')) b]
          rw [hb2]
        have hb1 : ',' ∉ b.takeWhile (· ≠ ',') := by
          intro hm
          have := List.mem_takeWhile_imp hm
          simp at this
        have hfield : ',' ∉ a ++ '#' :: b.takeWhile (· ≠ ',') := by
          intro hm
          rcases List.mem_append.mp hm with hm | hm
          · exact hcm hm
          · rcases List.mem_cons.mp hm with hm | hm
            · exact absurd hm (by decide)
            · exact hb1 hm
        have e1 : a ++ '#' :: b = (a ++ '#' :: b.takeWhile (· ≠ ',')) ++ ',' :: b2 := by
          conv_lhs => rw [hdecompb]
          rw [List.append_assoc, List.cons_append]
        rw [e1, pySplit_append_sep _ hfield]
        have hfh : '#' ∈ a ++ '#' :: b.takeWhile (· ≠ ',') := by simp
        have hfna : (a ++ '#' :: b.takeWhile (· ≠ ',')) ∉ naValues := by
          apply hna _ ?_ hfh
          rw [e1, pySplit_append_sep _ hfield]
          exact List.mem_cons_self _ _
        rw [checkComments_cons_of_mem hfh hfna _, takeWhile_append_hash _ _ ha,
          pySplit_of_not_mem hcm]
        by_cases h0 : a = []
        · subst h0
          rw [if_pos rfl]
          rfl
        · rw [if_neg h0]
      · have hnm : ',' ∉ a ++ '#' :: b := by
          intro hm
          rcases List.mem_append.mp hm with hm | hm
          · exact hcm hm
          · rcases List.mem_cons.mp hm with hm | hm
            · exact absurd hm (by decide)
            · exact hcb hm
        rw [pySplit_of_not_mem hnm, pySplit_of_not_mem hcm]
        have hfh : '#' ∈ a ++ '#' :: b := by simp
        have hfna : (a ++ '#' :: b) ∉ naValues := by
          apply hna _ ?_ hfh
          rw [pySplit_of_not_mem hnm]
          exact List.mem_cons_self _ _
        rw [checkComments_cons_of_mem hfh hfna _, takeWhile_append_hash _ _ ha]
        by_cases h0 : a = []
        · subst h0
          rw [if_pos rfl]
          rfl
        · rw [if_neg h0]

theorem rstrip_cc_split_comment (a b : List Char) (ha : '#' ∉ a)
    (hna : ∀ f ∈ pySplit ',' (a ++ '#' :: b), '#' ∈ f → f ∉ naValues) :
    rstripEmpty (checkComments (pySplit ',' (a ++ '#' :: b))) =
      rstripEmpty (pySplit ',' a) :=
  rstrip_cc_split_fuel a.length a b (le_refl _) ha hna

/-- C10 (amended): on a quote-free line none of whose `#`-containing
fields is a default na-value string, the comment marker takes effect
anywhere, not only at line start: processing the line (csv split, then the
python engine's field-level comment stripping) agrees with splitting the
line truncated at the first `#`, up to trailing empty fields.  A field
that is exactly a default na-value string (such as `#N/A`) is exempt: it
passes through whole and the row continues.  (Whether the surviving row is
then kept is the blank-row rule: see the counterexample for the corner the
original claim misses.) -/
theorem sus_C10 :
    (∀ line : List Char, '"' ∉ line →
        (∀ f ∈ splitFields line, '#' ∈ f → f ∉ naValues) →
        rstripEmpty (checkComments (splitFields line)) =
          rstripEmpty (splitFields (line.takeWhile (· ≠ '#')))) ∧
      (∀ (x : List Char) (xs : List (List Char)), x ∈ naValues →
        checkComments (x :: xs) = x :: checkComments xs) := by
  constructor
  · intro line hq hna
    have htw_sub : ∀ x ∈ line.takeWhile (· ≠ '#'), x ∈ line :=
      fun x hx => ( List.takeWhile_prefix _).subset hx
    have hq2 : '"' ∉ line.takeWhile (· ≠ '#') := fun hm => hq (htw_sub _ hm)
    rw [splitFields_eq_pySplit hq] at hna
    rw [splitFields_eq_pySplit hq, splitFields_eq_pySplit hq2]
    by_cases hh : '#' ∈ line
    · rcases dropWhile_first '#' hh with ⟨b, hb⟩
      have hdecomp : line = line.takeWhile (· ≠ '#') ++ '#' :: b := by
        conv_lhs => rw [← List.takeWhile_append_dropWhile (fun c => decide (c ≠ '#')) line]
        rw [hb]
      have hnotin : '#' ∉ line.takeWhile (· ≠ '#') := by
        intro hm
        have := List.mem_takeWhile_imp hm
        simp at this
      rw [show pySplit ',' line =
          pySplit ',' (line.takeWhile (· ≠ '#') ++ '#' :: b) from by rw [← hdecomp]]
      refine rstrip_cc_split_comment _ b hnotin ?_
      intro f hf hfh
      apply hna f ?_ hfh
      rw [← hdecomp] at hf
      exact hf
    · have he : line.takeWhile (· ≠ '#') = line := takeWhile_all (by
        intro x hx
        simp only [decide_eq_true_eq]
        intro hcc
        exact hh (hcc ▸ hx))
      rw [he, checkComments_no_hash
        (fun f hf hx => hh (pySplit_mem_subset ',' line f hf '#' hx))]
  · intro x xs hx
    simp only [checkComments]
    rw [if_neg (fun hc => hc.2 hx)]

/-- C10 witness: the quote-free data row `a,b#c,d` is processed exactly as
the row truncated at the `#` (the record keeps `a` and `b` and loses
everything after the marker), while a field that is exactly the na-value
string `#N/A` is exempt from comment stripping and the row continues. -/
theorem sus_C10_witness :
    rstripEmpty (checkComments (splitFields ("a,b#c,d".data))) = [['a'], ['b']] ∧
      checkComments (("#N/A".data) :: [("b").data]) =
        ("#N/A".data) :: checkComments [("b").data] := by
  constructor
  · rw [sus_C10.1 ("a,b#c,d".data) (by decide) (by decide)]
    decide
  · exact sus_C10.2 ("#N/A".data) [("b").data] (by decide)

/-- C10 counterexample: the line `,#x` refutes the claim as stated.  If the
`#` discarded the rest of the line before field splitting, the line would
behave like the line `,` — two empty fields, one padded record.  Instead
comment stripping runs on the parsed fields and the surviving single empty
field makes the row blank, so the line yields no record at all while the
truncated line yields one. -/
theorem sus_C10_counterexample :
    processContent (",#x\n".data) = [] ∧
      processContent (",\n".data) = [[[], []]] := by
  constructor <;> decide

end Sus
